import Mathlib

/-!
Verification of the `BaseVyperCompiler` driver (ape-vyper), a shallow
embedding of `src/ape_vyper/compiler/_versions/base.py`.

Python dictionaries are embedded as association lists, `pathlib.Path`
values as lists of path components, and the filesystem / external
compiler / pragma scanners as explicit function parameters.  Each
definition mirrors one fragment of the Python source, named after it.
-/

namespace ApeVyper

/-! ## Settings resolver (`BaseVyperCompiler.get_settings`)

The optimization value stored in the pragma map is, in Python, either a
boolean or a string (e.g. "gas", "codesize").  `PyOpt` embeds that union.
-/

inductive PyOpt where
  | bool (b : Bool)
  | str (s : String)
deriving DecidableEq

/-- Python truthiness test on an optimization value: `False` and the empty
string are falsy. -/
def PyOpt.isFalsy : PyOpt → Bool
  | .bool b => !b
  | .str s => s == ""

/-- Python f-string rendering of an optimization value (`f"{optimization}"`). -/
def PyOpt.fmt : PyOpt → String
  | .bool true => "True"
  | .bool false => "False"
  | .str s => s

/-- Python f-string rendering of an optional string (`f"{evm_version}"`,
where `None` renders as "None"). -/
def optionFmt : Option String → String
  | none => "None"
  | some s => s

/-- Embedding of Python `str.lower()` (character-wise ASCII lowering). -/
def strLower (s : String) : String := ⟨s.data.map Char.toLower⟩

/-- `base.py` lines 205-206: take the entry of the optimization pragma map
when it is truthy, otherwise fall back to the version default
(`_get_default_optimization`). -/
def resolveOptimization (omap : String → Option PyOpt) (dflt : PyOpt)
    (sid : String) : PyOpt :=
  match omap sid with
  | none => dflt
  | some v => if v.isFalsy then dflt else v

/-- `base.py` line 208: `evm_version_map.get(source_id, default_evm_version)`. -/
def resolveEvm (emap : String → Option String) (dflt : Option String)
    (sid : String) : Option String :=
  match emap sid with
  | some v => some v
  | none => dflt

/-- `base.py` line 209: `settings_key = f"{optimization}%{evm_version}".lower()`. -/
def settingsKey (omap : String → Option PyOpt) (emap : String → Option String)
    (dfltOpt : PyOpt) (dfltEvm : Option String) (sid : String) : String :=
  strLower ((resolveOptimization omap dfltOpt sid).fmt ++ "%"
    ++ optionFmt (resolveEvm emap dfltEvm sid))

/-- `base.py` lines 210-213: insert `s` into the group keyed `k` of the
`output_selection` dictionary (dict of sets, embedded as an association
list of duplicate-free lists in insertion order). -/
def addToGroup (groups : List (String × List String)) (k s : String) :
    List (String × List String) :=
  match groups with
  | [] => [(k, [s])]
  | (k', ss) :: rest =>
    if k' = k then (k', if s ∈ ss then ss else ss ++ [s]) :: rest
    else (k', ss) :: addToGroup rest k s

/-- `base.py` lines 202-213: the grouping loop of `get_settings`, folding
every source id into the group of its settings key. -/
def buildOutputSelection (key : String → String) (sids : List String) :
    List (String × List String) :=
  sids.foldl (fun gs s => addToGroup gs (key s) s) []

/-! ## Output selection (`BaseVyperCompiler._get_selection_dictionary`) -/

/-- Embedding of the Python substring test `needle in hay` on strings. -/
def pyContains (needle hay : String) : Bool :=
  decide (needle.data <:+: hay.data)

/-- `base.py` lines 256-274: keep the selected source ids whose file exists
(`(pm.path / s).is_file()`, embedded as the predicate `isFile` on the
relative id) and whose id passes `"interfaces" not in s`; map each to the
configured output-format list. -/
def get_selection_dictionary (isFile : String → Bool) (outputFormat : List String)
    (selection : List String) : List (String × List String) :=
  selection.filterMap fun s =>
    if isFile s && !(pyContains "interfaces" s) then some (s, outputFormat)
    else none

/-- Split a character list at every '/' (the path-component split that
`pathlib.Path` performs on a relative id). -/
def splitComponents : List Char → List (List Char)
  | [] => [[]]
  | c :: rest =>
    if c = '/' then [] :: splitComponents rest
    else
      match splitComponents rest with
      | [] => [[c]]
      | p :: ps => (c :: p) :: ps

/-- The path components of a relative source id. -/
def pathComponents (s : String) : List String :=
  (splitComponents s.data).map fun cs => ⟨cs⟩

/-- Modelled from the spec (for comparison with `get_selection_dictionary`
and `get_sources_dictionary`, whose claims speak of files "inside an
interfaces directory"): a relative source id names a file inside an
"interfaces" directory when one of its directory components (every
path component but the last) is the literal "interfaces". -/
def insideInterfacesDir (s : String) : Bool :=
  (pathComponents s).dropLast.contains "interfaces"

/-! ## Sources dictionary (`BaseVyperCompiler._get_sources_dictionary`)

Paths are embedded as lists of components; `pm.path / s` appends the
components of the relative id `s`, and `Path.parent` drops the last
component. -/

def pathJoin (base : List String) (s : String) : List String :=
  base ++ pathComponents s

/-- `base.py` lines 243-254: map each source id to its file content
(`p.read_text()`, embedded as `readText` on the relative id), keeping only
ids whose joined path has a parent different from `pm.path / "interfaces"`. -/
def get_sources_dictionary (readText : String → String) (pmPath : List String)
    (sourceIds : List String) : List (String × String) :=
  sourceIds.filterMap fun s =>
    if (pathJoin pmPath s).dropLast ≠ pmPath ++ ["interfaces"] then
      some (s, readText s)
    else none

/-! ## Result reconciliation and the compile driver (`BaseVyperCompiler.compile`) -/

/-- `base.py` lines 109-116: reconcile a result entry's source id against
the keys of the request's sources dictionary.  `sep` embeds `os.path.sep`. -/
def reconcileSourceId (sep : String) (srcKeys : List String) (sid : String) :
    Option String :=
  if sid ∈ srcKeys then some sid
  else if (sep ++ sid) ∈ srcKeys then some (sep ++ sid)
  else none

/-- One artifact yielded by the driver; only the fields the claims touch. -/
structure Artifact where
  contractName : String
  sourceId : String
  content : String
deriving DecidableEq

/-- `base.py` lines 109-173, per result entry: reconcile the source id; on
failure contribute nothing (`continue`), otherwise build one artifact per
named contract in the entry from the matched source's dictionary entry. -/
def processResultEntry (sep : String) (srcDict : List (String × String))
    (entry : String × List String) : List Artifact :=
  match reconcileSourceId sep (srcDict.map Prod.fst) entry.1 with
  | none => []
  | some sid =>
    entry.2.map fun nm =>
      { contractName := nm, sourceId := sid,
        content := (srcDict.lookup sid).getD "" }

/-- The settings payload of one settings group (`version_settings[key]`). -/
structure SettingsSet where
  optimize : PyOpt
  outputSelection : List (String × List String)
  searchPaths : List String
  evmVersion : Option String
deriving DecidableEq

/-- The request sent to `vvm_compile_standard` (`input_json`).  The
`interfaces` field is `none` exactly when the key is absent from the
request dictionary. -/
structure InputJson where
  language : String
  settings : SettingsSet
  sources : List (String × String)
  interfaces : Option (List (String × String))
deriving DecidableEq

/-- `base.py` lines 90-97: assemble `input_json`; the `interfaces` key is
added only when `get_import_remapping` returned a truthy (non-empty)
dictionary. -/
def mkInputJson (settingsSet : SettingsSet) (srcDict : List (String × String))
    (remapping : List (String × String)) : InputJson :=
  { language := "Vyper", settings := settingsSet, sources := srcDict,
    interfaces := if remapping = [] then none else some remapping }

/-- The error raised by the external compiler (`vvm.exceptions.VyperError`). -/
structure VyperErr where
  message : String
deriving DecidableEq

/-- Modelled from the spec: the repository's `VyperCompileError`
(`ape_vyper/exceptions.py`, not under the provided sources) wraps the
underlying tool error, attached as its cause (`base_err`). -/
structure VyperCompileErrorE where
  base_err : VyperErr
deriving DecidableEq

/-- The result returned by the external compiler: per-source lists of
named contract outputs (`result["contracts"]`). -/
structure CompilerResult where
  contracts : List (String × List String)
deriving DecidableEq

/-- `base.py` lines 80-116 for a single settings group: skip when the
output selection is empty (falsy), otherwise build the sources dictionary
and the request, invoke the compiler once, raise `VyperCompileError(err)`
on a compiler error, and otherwise process every result entry. -/
def compileGroup (sep : String) (readText : String → String) (pmPath : List String)
    (remapping : List (String × String))
    (runCompiler : InputJson → Except VyperErr CompilerResult)
    (settingsSet : SettingsSet) : Except VyperCompileErrorE (List Artifact) :=
  if settingsSet.outputSelection = [] then .ok []
  else
    let srcDict := get_sources_dictionary readText pmPath
      (settingsSet.outputSelection.map Prod.fst)
    match runCompiler (mkInputJson settingsSet srcDict remapping) with
    | .error e => .error ⟨e⟩
    | .ok res => .ok (res.contracts.flatMap (processResultEntry sep srcDict))

/-! ## Source-map step (`BaseVyperCompiler.compile`, lines 130-135) -/

/-- One decompressed source-map record (`ethpm_types.SourceMap` entry);
field contents are opaque to the driver. -/
structure SourceMapEntry where
  start : Int
  length : Int
  fileIndex : Int
  jump : String
deriving DecidableEq

/-- The runtime-bytecode part of one contract's compiler output
(`evm["deployedBytecode"]`); `sourceMap` is the raw compact string when
the key is present. -/
structure RuntimeBytecode where
  object : String
  opcodes : String
  sourceMap : Option String
deriving DecidableEq

/-- `base.py` lines 130-138: when the runtime bytecode carries a source
map, parse the compact string (`parseSM` embeds `SourceMap.parse`) and
drop the first entry (`list(...)[1:]`); the result is the `src_map`
argument handed to `_get_pcmap`.  Absent a source map, `src_map` is None. -/
def srcMapForPcmap (parseSM : String → List SourceMapEntry)
    (rb : RuntimeBytecode) : Option (List SourceMapEntry) :=
  match rb.sourceMap with
  | some raw => some ((parseSM raw).drop 1)
  | none => none

/-! ## Dev-message scan (`BaseVyperCompiler.compile`, lines 141-145)

`content.root` is a dictionary line-number → line text, embedded as an
association list; `matchDev` embeds `re.search(DEV_MSG_PATTERN, line)`,
returning the captured group on a match. -/

/-- Embedding of Python `str.strip()`: remove leading and trailing
whitespace. -/
def pyStrip (s : String) : String :=
  ⟨((s.data.dropWhile Char.isWhitespace).reverse.dropWhile
      Char.isWhitespace).reverse⟩

/-- `base.py` lines 141-145: for every line of the content that matches
the dev-message pattern, record line-number → captured text stripped of
surrounding whitespace (`match.group(1).strip()`). -/
def devMessages (matchDev : String → Option String)
    (content : List (Nat × String)) : List (Nat × String) :=
  content.filterMap fun lnline =>
    (matchDev lnline.2).map fun g => (lnline.1, pyStrip g)

/-! ## AST classifier (`BaseVyperCompiler._classify_ast`) -/

inductive ASTClassification where
  | nonfunction
  | function
deriving DecidableEq

/-- An `ethpm_types.ASTNode`: type tag, line span, classification, and the
ordered list of children. -/
inductive ASTNode where
  | mk (ast_type : String) (lineno : Int) (end_lineno : Int)
      (classification : ASTClassification) (children : List ASTNode)

def ASTNode.ast_type : ASTNode → String
  | .mk t _ _ _ _ => t

def ASTNode.classification : ASTNode → ASTClassification
  | .mk _ _ _ c _ => c

mutual

/-- `base.py` lines 236-241: set the node's classification to FUNCTION
when its type tag lies in the function-type set (`FUNCTION_AST_TYPES`,
embedded as the parameter `fnTypes`), then recurse into every child,
whatever the node's own tag.  The in-place mutation is embedded as a pure
transform returning the updated tree. -/
def classifyAst (fnTypes : List String) : ASTNode → ASTNode
  | .mk t ln el c ch =>
    .mk t ln el (if t ∈ fnTypes then .function else c)
      (classifyAstList fnTypes ch)

/-- The `for child in _node.children` loop of `_classify_ast`. -/
def classifyAstList (fnTypes : List String) : List ASTNode → List ASTNode
  | [] => []
  | n :: ns => classifyAst fnTypes n :: classifyAstList fnTypes ns

end

mutual

/-- All nodes of a tree, at every depth (the tree in visit order). -/
def allNodes : ASTNode → List ASTNode
  | .mk t ln el c ch => .mk t ln el c ch :: allNodesList ch

def allNodesList : List ASTNode → List ASTNode
  | [] => []
  | n :: ns => allNodes n ++ allNodesList ns

end

mutual

/-- The tree with every classification reset: equality of stripped trees
states that two trees agree on node count, child ordering, type tags and
line spans, differing at most in classifications. -/
def stripClass : ASTNode → ASTNode
  | .mk t ln el _ ch => .mk t ln el .nonfunction (stripClassList ch)

def stripClassList : List ASTNode → List ASTNode
  | [] => []
  | n :: ns => stripClass n :: stripClassList ns

end

/-! ## Example fixtures used by witnesses -/

/-- A tiny parsed source map: three entries. -/
def smParseEx : String → List SourceMapEntry := fun _ =>
  [⟨0, 5, 0, "-"⟩, ⟨5, 3, 0, "-"⟩, ⟨8, 2, 0, "o"⟩]

/-- A runtime bytecode carrying a compact source map. -/
def rbEx : RuntimeBytecode := ⟨"0x6003", "PUSH1 0x03", some "compact"⟩

/-- A settings set with a one-file output selection. -/
def settingsSetEx : SettingsSet :=
  ⟨.bool true, [("a.vy", ["*"])], ["."], some "istanbul"⟩

/-! ## Theorems -/

/-- C1: whenever the runtime bytecode output carries a source map, the
driver parses the compact string into an ordered sequence and discards
exactly the first entry: the `src_map` handed to PC-map construction is
the parsed sequence without its head, same length minus one, with every
remaining element at its original relative position. -/
theorem compile_drops_first_sourcemap_entry
    (parseSM : String → List SourceMapEntry) (rb : RuntimeBytecode)
    (raw : String) (e : SourceMapEntry) (rest : List SourceMapEntry)
    (hraw : rb.sourceMap = some raw) (hparse : parseSM raw = e :: rest) :
    srcMapForPcmap parseSM rb = some rest ∧
    rest.length + 1 = (parseSM raw).length ∧
    ∀ i : Nat, rest[i]? = (parseSM raw)[i + 1]? := by
  refine ⟨?_, ?_, ?_⟩ <;> simp [srcMapForPcmap, hraw, hparse]

/-- Witness for C1 at a concrete three-entry parse. -/
theorem compile_drops_first_sourcemap_entry_witness :
    srcMapForPcmap smParseEx rbEx = some [⟨5, 3, 0, "-"⟩, ⟨8, 2, 0, "o"⟩] ∧
    ([⟨5, 3, 0, "-"⟩, ⟨8, 2, 0, "o"⟩] : List SourceMapEntry)[0]?
      = (smParseEx "compact")[1]? :=
  ⟨(compile_drops_first_sourcemap_entry smParseEx rbEx "compact"
      ⟨0, 5, 0, "-"⟩ [⟨5, 3, 0, "-"⟩, ⟨8, 2, 0, "o"⟩] rfl rfl).1,
   (compile_drops_first_sourcemap_entry smParseEx rbEx "compact"
      ⟨0, 5, 0, "-"⟩ [⟨5, 3, 0, "-"⟩, ⟨8, 2, 0, "o"⟩] rfl rfl).2.2 0⟩

/-- C3: when the external compiler reports a fatal error for a
settings-group invocation, the group's compilation is the raised
`VyperCompileError` whose cause (`base_err`) is the underlying tool
error; the result carries no artifact for that group. -/
theorem compile_error_propagates
    (sep : String) (readText : String → String) (pmPath : List String)
    (remapping : List (String × String))
    (runCompiler : InputJson → Except VyperErr CompilerResult)
    (settingsSet : SettingsSet) (e : VyperErr)
    (hsel : settingsSet.outputSelection ≠ [])
    (herr : runCompiler (mkInputJson settingsSet
        (get_sources_dictionary readText pmPath
          (settingsSet.outputSelection.map Prod.fst)) remapping)
      = .error e) :
    compileGroup sep readText pmPath remapping runCompiler settingsSet
      = .error ⟨e⟩ := by
  simp [compileGroup, hsel, herr]

/-- Witness for C3: a compiler that always fails makes the group
compilation surface that very error as the cause. -/
theorem compile_error_propagates_witness :
    compileGroup "/" (fun _ => "x: uint256") ["proj"] []
      (fun _ => .error ⟨"bad syntax"⟩) settingsSetEx
      = .error ⟨⟨"bad syntax"⟩⟩ :=
  compile_error_propagates "/" (fun _ => "x: uint256") ["proj"] []
    (fun _ => .error ⟨"bad syntax"⟩) settingsSetEx ⟨"bad syntax"⟩
    (by decide) rfl

/-- C4: a per-source result entry is processed under its own identifier
when that identifier is a key of the request's sources dictionary;
otherwise, when prefixing one path separator yields a key, the prefixed
identifier is used; otherwise the entry is skipped silently, producing no
artifact (and, the processing being total, raising no error). -/
theorem process_result_entry_reconciliation
    (sep : String) (srcDict : List (String × String)) (sid : String)
    (outs : List String) :
    (sid ∈ srcDict.map Prod.fst →
      processResultEntry sep srcDict (sid, outs)
        = outs.map fun nm => ⟨nm, sid, (srcDict.lookup sid).getD ""⟩) ∧
    (sid ∉ srcDict.map Prod.fst → (sep ++ sid) ∈ srcDict.map Prod.fst →
      processResultEntry sep srcDict (sid, outs)
        = outs.map fun nm => ⟨nm, sep ++ sid, (srcDict.lookup (sep ++ sid)).getD ""⟩) ∧
    (sid ∉ srcDict.map Prod.fst → (sep ++ sid) ∉ srcDict.map Prod.fst →
      processResultEntry sep srcDict (sid, outs) = []) := by
  refine ⟨fun h1 => ?_, fun h1 h2 => ?_, fun h1 h2 => ?_⟩
  · simp [processResultEntry, reconcileSourceId, h1]
  · simp [processResultEntry, reconcileSourceId, h1, h2]
  · simp [processResultEntry, reconcileSourceId, h1, h2]

/-- Witness for C4: exact match, separator-prefixed match, and the silent
skip, each at a concrete dictionary. -/
theorem process_result_entry_reconciliation_witness :
    processResultEntry "/" [("a.vy", "codeA"), ("/b.vy", "codeB")] ("a.vy", ["A"])
      = [⟨"A", "a.vy", "codeA"⟩] ∧
    processResultEntry "/" [("a.vy", "codeA"), ("/b.vy", "codeB")] ("b.vy", ["B"])
      = [⟨"B", "/b.vy", "codeB"⟩] ∧
    processResultEntry "/" [("a.vy", "codeA"), ("/b.vy", "codeB")] ("c.vy", ["C"])
      = [] :=
  ⟨((process_result_entry_reconciliation "/" [("a.vy", "codeA"), ("/b.vy", "codeB")]
      "a.vy" ["A"]).1 (by decide)).trans (by decide),
   ((process_result_entry_reconciliation "/" [("a.vy", "codeA"), ("/b.vy", "codeB")]
      "b.vy" ["B"]).2.1 (by decide) (by decide)).trans (by decide),
   (process_result_entry_reconciliation "/" [("a.vy", "codeA"), ("/b.vy", "codeB")]
      "c.vy" ["C"]).2.2 (by decide) (by decide)⟩

/-- C10: the request payload carries the "interfaces" key exactly when
the computed import remapping is non-empty; an empty remapping sends the
request with no "interfaces" key, and a non-empty one is passed through
unchanged. -/
theorem input_json_interfaces_iff
    (settingsSet : SettingsSet) (srcDict remapping : List (String × String)) :
    ((∃ m, (mkInputJson settingsSet srcDict remapping).interfaces = some m)
        ↔ remapping ≠ []) ∧
    (remapping = [] → (mkInputJson settingsSet srcDict remapping).interfaces = none) ∧
    (remapping ≠ [] →
      (mkInputJson settingsSet srcDict remapping).interfaces = some remapping) := by
  refine ⟨⟨fun hm hemp => ?_, fun h => ⟨remapping, by simp [mkInputJson, h]⟩⟩,
    fun h => by simp [mkInputJson, h], fun h => by simp [mkInputJson, h]⟩
  obtain ⟨m, hm⟩ := hm
  simp [mkInputJson, hemp] at hm

/-- Witness for C10: an empty remapping omits the key, a singleton
remapping includes it. -/
theorem input_json_interfaces_iff_witness :
    (mkInputJson settingsSetEx [] []).interfaces = none ∧
    (mkInputJson settingsSetEx [] [("dep/IFace.json", "abi")]).interfaces
      = some [("dep/IFace.json", "abi")] :=
  ⟨(input_json_interfaces_iff settingsSetEx [] []).2.1 rfl,
   (input_json_interfaces_iff settingsSetEx [] [("dep/IFace.json", "abi")]).2.2
     (by decide)⟩

theorem splitComponents_ne_nil (cs : List Char) : splitComponents cs ≠ [] := by
  cases cs with
  | nil => simp [splitComponents]
  | cons c rest =>
    simp only [splitComponents]
    split
    · simp
    · split <;> simp

theorem pathComponents_ne_nil (s : String) : pathComponents s ≠ [] := by
  simp [pathComponents, splitComponents_ne_nil]

/-- C5 counterexample: "noninterfaces.vy" is a plain file at the project
root — it exists and is not inside any "interfaces" directory — yet
`_get_selection_dictionary` drops it, because the code tests the
substring "interfaces" against the whole identifier. -/
theorem selection_dictionary_not_directory_based :
    insideInterfacesDir "noninterfaces.vy" = false ∧
    (fun (_ : String) => true) "noninterfaces.vy" = true ∧
    get_selection_dictionary (fun _ => true) ["*"] ["noninterfaces.vy"] = [] :=
  ⟨by decide, rfl, by decide⟩

/-- C5 amended: the output-selection map contains exactly those selected
identifiers whose file exists and that do not contain the substring
"interfaces"; every retained identifier maps to the configured
output-format list. -/
theorem selection_dictionary_characterization
    (isFile : String → Bool) (outputFormat : List String)
    (selection : List String) (s : String) (fmts : List String) :
    (s, fmts) ∈ get_selection_dictionary isFile outputFormat selection ↔
      s ∈ selection ∧ isFile s = true ∧ pyContains "interfaces" s = false ∧
        fmts = outputFormat := by
  simp only [get_selection_dictionary, List.mem_filterMap]
  constructor
  · rintro ⟨a, ha, hf⟩
    split at hf
    case isTrue hc =>
      simp only [Option.some.injEq, Prod.mk.injEq] at hf
      obtain ⟨rfl, rfl⟩ := hf
      simp only [Bool.and_eq_true, Bool.not_eq_true'] at hc
      exact ⟨ha, hc.1, hc.2, rfl⟩
    case isFalse => exact absurd hf (by simp)
  · rintro ⟨hs, hf, hc, rfl⟩
    exact ⟨s, hs, by simp [hf, hc]⟩

/-- Witness for the amended C5: an existing plain file is retained and
mapped to the output-format list. -/
theorem selection_dictionary_characterization_witness :
    ("a.vy", ["*"]) ∈ get_selection_dictionary (fun _ => true) ["*"] ["a.vy"] :=
  (selection_dictionary_characterization (fun _ => true) ["*"] ["a.vy"]
    "a.vy" ["*"]).mpr ⟨by decide, rfl, by decide, rfl⟩

/-- C6 counterexample: "interfaces/sub/IFace.vy" lies under the project's
"interfaces" directory, yet `_get_sources_dictionary` keeps it (and its
content), because the code only compares the file's immediate parent with
`pm.path / "interfaces"`. -/
theorem sources_dictionary_keeps_nested_interfaces :
    insideInterfacesDir "interfaces/sub/IFace.vy" = true ∧
    get_sources_dictionary (fun _ => "code") ["proj"] ["interfaces/sub/IFace.vy"]
      = [("interfaces/sub/IFace.vy", "code")] :=
  ⟨by decide, by decide⟩

/-- C6 amended: the sources dictionary maps each selected identifier to
its file content and excludes exactly those sources whose parent
directory is the project root's "interfaces" directory (that is, whose
relative id has directory part exactly `interfaces`). -/
theorem sources_dictionary_characterization
    (readText : String → String) (pmPath : List String)
    (sourceIds : List String) (s c : String) :
    (s, c) ∈ get_sources_dictionary readText pmPath sourceIds ↔
      s ∈ sourceIds ∧ (pathComponents s).dropLast ≠ ["interfaces"] ∧
        c = readText s := by
  have hcond : ((pathJoin pmPath s).dropLast ≠ pmPath ++ ["interfaces"]) ↔
      (pathComponents s).dropLast ≠ ["interfaces"] := by
    rw [pathJoin, List.dropLast_append_of_ne_nil _ (pathComponents_ne_nil s)]
    constructor
    · exact fun h hh => h (by rw [hh])
    · exact fun h hh => h (List.append_cancel_left hh)
  simp only [get_sources_dictionary, List.mem_filterMap]
  constructor
  · rintro ⟨a, ha, hf⟩
    split at hf
    case isTrue hc =>
      simp only [Option.some.injEq, Prod.mk.injEq] at hf
      obtain ⟨rfl, rfl⟩ := hf
      have hcond' : ((pathJoin pmPath a).dropLast ≠ pmPath ++ ["interfaces"]) ↔
          (pathComponents a).dropLast ≠ ["interfaces"] := by
        rw [pathJoin, List.dropLast_append_of_ne_nil _ (pathComponents_ne_nil a)]
        constructor
        · exact fun h hh => h (by rw [hh])
        · exact fun h hh => h (List.append_cancel_left hh)
      exact ⟨ha, hcond'.mp hc, rfl⟩
    case isFalse => exact absurd hf (by simp)
  · rintro ⟨hs, hcnd, rfl⟩
    exact ⟨s, hs, by rw [if_pos (hcond.mpr hcnd)]⟩

/-- Witness for the amended C6: a root-level file is kept with its
content while a direct child of `interfaces/` would fail the condition. -/
theorem sources_dictionary_characterization_witness :
    ("x.vy", "code") ∈ get_sources_dictionary (fun _ => "code") ["proj"]
      ["x.vy", "interfaces/IFace.vy"] :=
  (sources_dictionary_characterization (fun _ => "code") ["proj"]
    ["x.vy", "interfaces/IFace.vy"] "x.vy" "code").mpr
    ⟨by decide, by decide, rfl⟩

/-- In an association list with duplicate-free keys, a key determines its
value. -/
theorem assoc_nodup_value_unique {α β : Type} [DecidableEq α] (l : List (α × β))
    (h : (l.map Prod.fst).Nodup) (k : α) (b₁ b₂ : β)
    (h1 : (k, b₁) ∈ l) (h2 : (k, b₂) ∈ l) : b₁ = b₂ := by
  induction l with
  | nil => cases h1
  | cons p rest ih =>
    obtain ⟨k', b'⟩ := p
    simp only [List.map_cons, List.nodup_cons] at h
    rcases List.mem_cons.mp h1 with e1 | m1 <;> rcases List.mem_cons.mp h2 with e2 | m2
    · obtain ⟨rfl, rfl⟩ := Prod.mk.injEq .. |>.mp e1
      exact ((Prod.mk.injEq .. |>.mp e2).2).symm
    · obtain ⟨rfl, rfl⟩ := Prod.mk.injEq .. |>.mp e1
      exact absurd (List.mem_map_of_mem Prod.fst m2) (by simpa using h.1)
    · obtain ⟨rfl, rfl⟩ := Prod.mk.injEq .. |>.mp e2
      exact absurd (List.mem_map_of_mem Prod.fst m1) (by simpa using h.1)
    · exact ih h.2 m1 m2

/-- C8: the dev-message mapping has an entry — the line number mapped to
the captured text stripped of surrounding whitespace — exactly for the
content lines matched by the dev-message marker pattern, and (the line
numbers of the content dictionary being distinct) no entry for any
non-matching line. -/
theorem dev_messages_characterization
    (matchDev : String → Option String) (content : List (Nat × String)) :
    (∀ ln t, (ln, t) ∈ devMessages matchDev content ↔
      ∃ line, (ln, line) ∈ content ∧ ∃ g, matchDev line = some g ∧ t = pyStrip g) ∧
    ((content.map Prod.fst).Nodup →
      ∀ ln line, (ln, line) ∈ content → matchDev line = none →
        ∀ t, (ln, t) ∉ devMessages matchDev content) := by
  have hmem : ∀ ln t, (ln, t) ∈ devMessages matchDev content ↔
      ∃ line, (ln, line) ∈ content ∧ ∃ g, matchDev line = some g ∧ t = pyStrip g := by
    intro ln t
    simp only [devMessages, List.mem_filterMap]
    constructor
    · rintro ⟨⟨ln', line⟩, hin, hf⟩
      simp only [Option.map_eq_some'] at hf
      obtain ⟨g, hg, he⟩ := hf
      obtain ⟨rfl, rfl⟩ := Prod.mk.injEq .. |>.mp he
      exact ⟨line, hin, g, hg, rfl⟩
    · rintro ⟨line, hline, g, hg, rfl⟩
      exact ⟨(ln, line), hline, by simp [hg]⟩
  refine ⟨hmem, fun hnd ln line hln hnone t ht => ?_⟩
  obtain ⟨line', hline', g, hg, rfl⟩ := (hmem ln t).mp ht
  rw [assoc_nodup_value_unique content hnd ln line' line hline' hln, hnone] at hg
  cases hg

/-- The dev-message matcher used by the C8 witness: recognizes one
concrete marker line and captures its text. -/
def matchDevEx : String → Option String := fun line =>
  if line = "    # dev: foo  " then some "dev: foo  " else none

/-- Witness for C8: the matching line yields a trimmed entry, the
non-matching line yields none. -/
theorem dev_messages_characterization_witness :
    (6, "dev: foo") ∈ devMessages matchDevEx [(6, "    # dev: foo  "), (7, "x = 1")] ∧
    (7, "dev: foo") ∉ devMessages matchDevEx [(6, "    # dev: foo  "), (7, "x = 1")] :=
  ⟨((dev_messages_characterization matchDevEx
      [(6, "    # dev: foo  "), (7, "x = 1")]).1 6 "dev: foo").mpr
      ⟨"    # dev: foo  ", by decide, "dev: foo  ", by decide, by decide⟩,
   (dev_messages_characterization matchDevEx
      [(6, "    # dev: foo  "), (7, "x = 1")]).2 (by decide) 7 "x = 1"
      (by decide) (by decide) "dev: foo"⟩

mutual

theorem stripClass_classifyAst (fnTypes : List String) (t : ASTNode) :
    stripClass (classifyAst fnTypes t) = stripClass t := by
  cases t with
  | mk ty ln el c ch =>
    simp only [classifyAst, stripClass, stripClassList_classifyAstList fnTypes ch]

theorem stripClassList_classifyAstList (fnTypes : List String)
    (ts : List ASTNode) :
    stripClassList (classifyAstList fnTypes ts) = stripClassList ts := by
  cases ts with
  | nil => rfl
  | cons n ns =>
    simp only [classifyAstList, stripClassList, stripClass_classifyAst fnTypes n,
      stripClassList_classifyAstList fnTypes ns]

end

mutual

theorem classifyAst_classifies (fnTypes : List String) (t : ASTNode) :
    ∀ n ∈ allNodes (classifyAst fnTypes t), n.ast_type ∈ fnTypes →
      n.classification = .function := by
  cases t with
  | mk ty ln el c ch =>
    intro n hn htype
    simp only [classifyAst, allNodes, List.mem_cons] at hn
    rcases hn with rfl | hn
    · simp only [ASTNode.ast_type] at htype
      simp [ASTNode.classification, htype]
    · exact classifyAstList_classifies fnTypes ch n hn htype

theorem classifyAstList_classifies (fnTypes : List String) (ts : List ASTNode) :
    ∀ n ∈ allNodesList (classifyAstList fnTypes ts), n.ast_type ∈ fnTypes →
      n.classification = .function := by
  cases ts with
  | nil => intro n hn; cases hn
  | cons x xs =>
    intro n hn htype
    simp only [classifyAstList, allNodesList, List.mem_append] at hn
    rcases hn with hn | hn
    · exact classifyAst_classifies fnTypes x n hn htype
    · exact classifyAstList_classifies fnTypes xs n hn htype

end

mutual

theorem length_allNodes_classifyAst (fnTypes : List String) (t : ASTNode) :
    (allNodes (classifyAst fnTypes t)).length = (allNodes t).length := by
  cases t with
  | mk ty ln el c ch =>
    simp only [classifyAst, allNodes, List.length_cons,
      length_allNodesList_classifyAstList fnTypes ch]

theorem length_allNodesList_classifyAstList (fnTypes : List String)
    (ts : List ASTNode) :
    (allNodesList (classifyAstList fnTypes ts)).length
      = (allNodesList ts).length := by
  cases ts with
  | nil => rfl
  | cons x xs =>
    simp only [classifyAstList, allNodesList, List.length_append,
      length_allNodes_classifyAst fnTypes x,
      length_allNodesList_classifyAstList fnTypes xs]

end

/-- C7: after classification, every node at any depth whose type tag lies
in the function-type set is classified FUNCTION; the classifier recurses
into all children regardless of the parent's tag, and the classified tree
agrees with the original on everything except classifications — in
particular node count, child ordering, type tags and line spans are
unchanged. -/
theorem classify_ast_spec (fnTypes : List String) (t : ASTNode) :
    (∀ n ∈ allNodes (classifyAst fnTypes t), n.ast_type ∈ fnTypes →
      n.classification = .function) ∧
    stripClass (classifyAst fnTypes t) = stripClass t ∧
    (allNodes (classifyAst fnTypes t)).length = (allNodes t).length :=
  ⟨classifyAst_classifies fnTypes t, stripClass_classifyAst fnTypes t,
   length_allNodes_classifyAst fnTypes t⟩

/-- A two-level tree used by the C7 witness: a module holding a function
definition and an assignment. -/
def astEx : ASTNode :=
  .mk "Module" 1 10 .nonfunction
    [.mk "FunctionDef" 2 5 .nonfunction [], .mk "Assign" 6 6 .nonfunction []]

/-- Witness for C7: in the concrete classified tree, the nested
function-definition node is classified FUNCTION, the stripped tree is
unchanged, and the node count is preserved. -/
theorem classify_ast_spec_witness :
    (ASTNode.mk "FunctionDef" 2 5 .function []).classification
        = .function ∧
    stripClass (classifyAst ["FunctionDef"] astEx) = stripClass astEx ∧
    (allNodes (classifyAst ["FunctionDef"] astEx)).length
      = (allNodes astEx).length :=
  ⟨(classify_ast_spec ["FunctionDef"] astEx).1
      (.mk "FunctionDef" 2 5 .function [])
      (by simp [astEx, classifyAst, classifyAstList, allNodes, allNodesList])
      (by simp [ASTNode.ast_type]),
   (classify_ast_spec ["FunctionDef"] astEx).2.1,
   (classify_ast_spec ["FunctionDef"] astEx).2.2⟩

/-! ## Grouping lemmas for `get_settings` -/

theorem addToGroup_keys (gs : List (String × List String)) (k s : String) :
    (addToGroup gs k s).map Prod.fst =
      if k ∈ gs.map Prod.fst then gs.map Prod.fst
      else gs.map Prod.fst ++ [k] := by
  induction gs with
  | nil => simp [addToGroup]
  | cons p rest ih =>
    obtain ⟨k', ss⟩ := p
    by_cases h : k' = k
    · subst h
      simp [addToGroup]
    · simp only [addToGroup, if_neg h, List.map_cons, ih, List.mem_cons]
      by_cases hm : k ∈ rest.map Prod.fst
      · simp [hm, Ne.symm h]
      · simp [hm, Ne.symm h]

theorem addToGroup_keys_nodup (gs : List (String × List String)) (k s : String)
    (h : (gs.map Prod.fst).Nodup) :
    ((addToGroup gs k s).map Prod.fst).Nodup := by
  rw [addToGroup_keys]
  by_cases hm : k ∈ gs.map Prod.fst
  · simpa [hm] using h
  · simp [hm, List.nodup_append, h, List.disjoint_singleton]

theorem addToGroup_mem_self (gs : List (String × List String)) (k s : String) :
    ∃ ss, (k, ss) ∈ addToGroup gs k s ∧ s ∈ ss := by
  induction gs with
  | nil => exact ⟨[s], by simp [addToGroup]⟩
  | cons p rest ih =>
    obtain ⟨k', ss'⟩ := p
    by_cases h : k' = k
    · subst h
      refine ⟨if s ∈ ss' then ss' else ss' ++ [s], by simp [addToGroup], ?_⟩
      by_cases hs : s ∈ ss' <;> simp [hs]
    · obtain ⟨ss, h1, h2⟩ := ih
      exact ⟨ss, by simp [addToGroup, h, h1], h2⟩

theorem addToGroup_mem_preserve (gs : List (String × List String))
    (k s k₀ : String) (ss₀ : List String) (h : (k₀, ss₀) ∈ gs)
    (x : String) (hx : x ∈ ss₀) :
    ∃ ss, (k₀, ss) ∈ addToGroup gs k s ∧ x ∈ ss := by
  induction gs with
  | nil => cases h
  | cons p rest ih =>
    obtain ⟨k', ss'⟩ := p
    by_cases hk : k' = k
    · subst hk
      rcases List.mem_cons.mp h with heq | hmem
      · obtain ⟨rfl, rfl⟩ := Prod.mk.injEq .. |>.mp heq
        refine ⟨if s ∈ ss₀ then ss₀ else ss₀ ++ [s], by simp [addToGroup], ?_⟩
        by_cases hs : s ∈ ss₀ <;> simp [hs, hx]
      · exact ⟨ss₀, by simp [addToGroup, hmem], hx⟩
    · rcases List.mem_cons.mp h with heq | hmem
      · obtain ⟨rfl, rfl⟩ := Prod.mk.injEq .. |>.mp heq
        exact ⟨ss₀, by simp [addToGroup, hk], hx⟩
      · obtain ⟨ss, h1, h2⟩ := ih hmem
        exact ⟨ss, by simp [addToGroup, hk, h1], h2⟩

theorem addToGroup_sound (gs : List (String × List String)) (k s k₀ : String)
    (ss₀ : List String) (h : (k₀, ss₀) ∈ addToGroup gs k s)
    (x : String) (hx : x ∈ ss₀) :
    (∃ ss₁, (k₀, ss₁) ∈ gs ∧ x ∈ ss₁) ∨ (k₀ = k ∧ x = s) := by
  induction gs with
  | nil =>
    simp only [addToGroup, List.mem_singleton] at h
    obtain ⟨rfl, rfl⟩ := Prod.mk.injEq .. |>.mp h
    right
    exact ⟨rfl, by simpa using hx⟩
  | cons p rest ih =>
    obtain ⟨k', ss'⟩ := p
    by_cases hk : k' = k
    · subst hk
      simp only [addToGroup, if_pos rfl] at h
      rcases List.mem_cons.mp h with heq | hmem
      · rw [Prod.mk.injEq] at heq
        obtain ⟨hk2, hs2⟩ := heq
        subst hk2
        rw [hs2] at hx
        by_cases hs : s ∈ ss'
        · rw [if_pos hs] at hx
          exact Or.inl ⟨ss', List.mem_cons_self .., hx⟩
        · rw [if_neg hs] at hx
          rcases List.mem_append.mp hx with hx' | hx'
          · exact Or.inl ⟨ss', List.mem_cons_self .., hx'⟩
          · exact Or.inr ⟨rfl, by simpa using hx'⟩
      · exact Or.inl ⟨ss₀, List.mem_cons_of_mem _ hmem, hx⟩
    · simp only [addToGroup, if_neg hk] at h
      rcases List.mem_cons.mp h with heq | hmem
      · rw [Prod.mk.injEq] at heq
        obtain ⟨hk2, hs2⟩ := heq
        subst hk2
        rw [hs2] at hx
        exact Or.inl ⟨ss', List.mem_cons_self .., hx⟩
      · rcases ih hmem with ⟨ss₁, h1, h2⟩ | hr
        · exact Or.inl ⟨ss₁, List.mem_cons_of_mem _ h1, h2⟩
        · exact Or.inr hr

theorem grouping_foldl_mem (key : String → String) (sids : List String)
    (gs₀ : List (String × List String)) (s : String)
    (h : s ∈ sids ∨ ∃ ss, (key s, ss) ∈ gs₀ ∧ s ∈ ss) :
    ∃ ss, (key s, ss) ∈ sids.foldl (fun gs x => addToGroup gs (key x) x) gs₀
      ∧ s ∈ ss := by
  induction sids generalizing gs₀ with
  | nil =>
    rcases h with h | h
    · cases h
    · simpa using h
  | cons a rest ih =>
    simp only [List.foldl_cons]
    apply ih
    rcases h with hmem | ⟨ss, h1, h2⟩
    · rcases List.mem_cons.mp hmem with rfl | hmem'
      · exact Or.inr (addToGroup_mem_self gs₀ (key s) s)
      · exact Or.inl hmem'
    · exact Or.inr (addToGroup_mem_preserve gs₀ (key a) a (key s) ss h1 s h2)

theorem grouping_foldl_sound (key : String → String) (sids : List String)
    (gs₀ : List (String × List String))
    (h₀ : ∀ k ss, (k, ss) ∈ gs₀ → ∀ x ∈ ss, k = key x) :
    ∀ k ss, (k, ss) ∈ sids.foldl (fun gs x => addToGroup gs (key x) x) gs₀ →
      ∀ x ∈ ss, k = key x := by
  induction sids generalizing gs₀ with
  | nil => exact h₀
  | cons a rest ih =>
    simp only [List.foldl_cons]
    apply ih
    intro k ss hmem x hx
    rcases addToGroup_sound gs₀ (key a) a k ss hmem x hx with ⟨ss₁, h1, h2⟩ | ⟨rfl, rfl⟩
    · exact h₀ k ss₁ h1 x h2
    · rfl

theorem grouping_foldl_keys_nodup (key : String → String) (sids : List String)
    (gs₀ : List (String × List String)) (h₀ : (gs₀.map Prod.fst).Nodup) :
    (((sids.foldl (fun gs x => addToGroup gs (key x) x) gs₀).map Prod.fst)).Nodup := by
  induction sids generalizing gs₀ with
  | nil => exact h₀
  | cons a rest ih =>
    simp only [List.foldl_cons]
    exact ih _ (addToGroup_keys_nodup gs₀ (key a) a h₀)

/-- C2: in the grouping built by `get_settings`, every source id lands in
the group of its settings key; every group member has the group's key and
group keys are duplicate-free, so each source belongs to exactly one
group; two sources with equal resolved (optimization, evm-version) pairs
share a key; and the key is the lowercased join of the resolved
optimization and evm-version with '%'. -/
theorem get_settings_grouping (omap : String → Option PyOpt)
    (emap : String → Option String) (dfltOpt : PyOpt)
    (dfltEvm : Option String) (sids : List String) :
    (∀ s ∈ sids, ∃ ss,
      (settingsKey omap emap dfltOpt dfltEvm s, ss)
        ∈ buildOutputSelection (settingsKey omap emap dfltOpt dfltEvm) sids
      ∧ s ∈ ss) ∧
    (∀ k ss, (k, ss) ∈ buildOutputSelection (settingsKey omap emap dfltOpt dfltEvm) sids →
      ∀ s ∈ ss, k = settingsKey omap emap dfltOpt dfltEvm s) ∧
    ((buildOutputSelection (settingsKey omap emap dfltOpt dfltEvm) sids).map Prod.fst).Nodup ∧
    (∀ s₁ s₂, s₁ ∈ sids → s₂ ∈ sids →
      resolveOptimization omap dfltOpt s₁ = resolveOptimization omap dfltOpt s₂ →
      resolveEvm emap dfltEvm s₁ = resolveEvm emap dfltEvm s₂ →
      settingsKey omap emap dfltOpt dfltEvm s₁ = settingsKey omap emap dfltOpt dfltEvm s₂) ∧
    (∀ s, settingsKey omap emap dfltOpt dfltEvm s
      = strLower ((resolveOptimization omap dfltOpt s).fmt ++ "%"
          ++ optionFmt (resolveEvm emap dfltEvm s))) := by
  refine ⟨fun s hs => ?_, ?_, ?_, fun s₁ s₂ _ _ ho he => ?_, fun s => rfl⟩
  · exact grouping_foldl_mem _ sids [] s (Or.inl hs)
  · exact grouping_foldl_sound _ sids [] (by intro k ss h; cases h)
  · exact grouping_foldl_keys_nodup _ sids [] (by simp)
  · simp [settingsKey, ho, he]

/-- Witness for C2 at a concrete batch of three sources. -/
theorem get_settings_grouping_witness :
    (∃ ss,
      (settingsKey (fun _ => none) (fun _ => none) (.bool true) (some "istanbul") "a.vy", ss)
        ∈ buildOutputSelection
            (settingsKey (fun _ => none) (fun _ => none) (.bool true) (some "istanbul"))
            ["a.vy", "b.vy", "c.vy"]
      ∧ "a.vy" ∈ ss) ∧
    ((buildOutputSelection
        (settingsKey (fun _ => none) (fun _ => none) (.bool true) (some "istanbul"))
        ["a.vy", "b.vy", "c.vy"]).map Prod.fst).Nodup :=
  ⟨(get_settings_grouping (fun _ => none) (fun _ => none) (.bool true)
      (some "istanbul") ["a.vy", "b.vy", "c.vy"]).1 "a.vy" (by decide),
   (get_settings_grouping (fun _ => none) (fun _ => none) (.bool true)
      (some "istanbul") ["a.vy", "b.vy", "c.vy"]).2.2.1⟩

/-- Lowercasing distributes over string concatenation. -/
theorem strLower_append (a b : String) :
    strLower (a ++ b) = strLower a ++ strLower b := by
  apply String.ext
  simp [strLower, String.data_append]

/-- C9: a source whose optimization pragma entry is falsy (absent, an
empty string, or an explicit boolean False) resolves to the version
default; with the default True, the source's settings key carries the
"true" optimization component, so no such source can land in a group
keyed by a false optimization value. -/
theorem falsy_optimization_uses_default (omap : String → Option PyOpt)
    (emap : String → Option String) (dfltEvm : Option String) (sid : String)
    (h : omap sid = none ∨ ∃ v, omap sid = some v ∧ v.isFalsy = true) :
    resolveOptimization omap (.bool true) sid = .bool true ∧
    ∃ r, settingsKey omap emap (.bool true) dfltEvm sid = "true%" ++ r := by
  have h1 : resolveOptimization omap (.bool true) sid = .bool true := by
    rcases h with h | ⟨v, hv, hf⟩
    · simp [resolveOptimization, h]
    · simp [resolveOptimization, hv, hf]
  refine ⟨h1, strLower (optionFmt (resolveEvm emap dfltEvm sid)), ?_⟩
  rw [settingsKey, h1]
  have h2 : (PyOpt.bool true).fmt ++ "%" = "True%" := rfl
  rw [h2, strLower_append]
  have h3 : strLower "True%" = "true%" := by decide
  rw [h3]

/-- Witness for C9: an explicit boolean-False pragma entry still yields
the default True and a "true%"-keyed group. -/
theorem falsy_optimization_uses_default_witness :
    resolveOptimization (fun _ => some (.bool false)) (.bool true) "a.vy"
        = .bool true ∧
    ∃ r, settingsKey (fun _ => some (.bool false)) (fun _ => none)
        (.bool true) (some "istanbul") "a.vy" = "true%" ++ r :=
  falsy_optimization_uses_default (fun _ => some (.bool false)) (fun _ => none)
    (some "istanbul") "a.vy" (Or.inr ⟨.bool false, rfl, rfl⟩)

end ApeVyper
